import Mathlib

/-!
Verification of the robot-control scripts (line-following and object-sorting
tasks) against their specification.  The simulator transport is external: a
transport read is modelled by its return code together with the already
unpacked float payload (floats are modelled as exact rationals), and a
packed outgoing signal is modelled as the pair of rational speeds it
carries.  Everything else is translated directly from the Python source.
-/

namespace Robo

/-- Python `int(q)` on a real value: truncation toward zero
(floor for nonnegative arguments, ceiling for negative ones). -/
def pyInt (q : ℚ) : ℤ :=
  if q < 0 then ⌈q⌉ else ⌊q⌋

/-- Splits `l` into `m` consecutive chunks of `n` elements each
(the last chunks are short or empty when `l` has fewer than `m * n`
elements).  Auxiliary for `chunks`. -/
def chunksOfAux {α : Type} (n : ℕ) : ℕ → List α → List (List α)
  | 0, _ => []
  | m + 1, l => l.take n :: chunksOfAux n m (l.drop n)

/-- Splits `l` into chunks of `n` elements.  When `n` divides `l.length`
exactly this is the list of rows of numpy `reshape` with innermost
dimension `n`. -/
def chunks {α : Type} (n : ℕ) (l : List α) : List (List α) :=
  chunksOfAux n (l.length / n) l

/-- A decoded image: rows of pixels of channel values,
shape `res × res × 3` for well-formed frames. -/
abbrev Frame := List (List (List ℤ))

/-- numpy `reshape((res, res, 3))` of a flat channel list:
rows of `res * 3` values, each split into pixels of 3 channels. -/
def reshape3 (res : ℕ) (l : List ℤ) : Frame :=
  (chunks (res * 3) l).map (chunks 3)

/-- `ColorSensor.image_correction` (identical helper in
`wall_e_script.py`): scale each sample by 255 and truncate to an integer,
reshape the flat list to `res × res × 3`, and flip the row axis
(numpy `flip(axis=0)` is list reversal of the rows).  numpy `reshape`
raises when the element count is not `res * res * 3`; that failure is
modelled as `none`. -/
def image_correction (image : List ℚ) (res : ℕ) : Option Frame :=
  let ints := image.map (fun x => pyInt (x * 255))
  if ints.length = res * res * 3 then
    some ((reshape3 res ints).reverse)
  else
    none

/-- Success path of `ColorSensor._get_image_sensor`: the transport has
already delivered and unpacked the flat sample list; the resolution is
`int(sqrt(len(image) / 3))`, which over the naturals is
`Nat.sqrt (image.length / 3)`. -/
def decode (image : List ℚ) : Option Frame :=
  image_correction image (Nat.sqrt (image.length / 3))

/-- numpy `mean` over a rational list (0 on the empty list, where numpy
would produce nan; the claims only use nonempty inputs). -/
def listMean (l : List ℚ) : ℚ :=
  l.sum / l.length

/-- The red channel `frame[:, :, 0]` as a flat list: channel 0 of every
pixel, rows concatenated. -/
def redChannel (frame : Frame) : List ℤ :=
  frame.flatten.map (fun px => px.getD 0 0)

/-- `ColorSensor.reflection`: `mean(image[:, :, 0] / 255 * 100)` —
every red-channel value is scaled to a percentage, then averaged. -/
def reflection (frame : Frame) : ℚ :=
  listMean ((redChannel frame).map (fun v : ℤ => (v : ℚ) / 255 * 100))

/-- A `res × res × 3` frame whose channel values all equal `v`. -/
def constFrame (res : ℕ) (v : ℤ) : Frame :=
  List.replicate res (List.replicate res (List.replicate 3 v))

/-- `is_red_detected` from `lineMaze.py`, on the channel means returned by
`rgb()`: the red intensity `red / (green + blue)` exceeds the fixed
threshold 1.5 (strictly). -/
def is_red_detected (red green blue : ℚ) : Bool :=
  let red_ratio_threshold : ℚ := 3 / 2
  let red_intensity := red / (green + blue)
  decide (red_intensity > red_ratio_threshold)

/-- `is_blue_detected` from `lineMaze.py`: the blue intensity
`blue / (red + green)` exceeds 1.5 (strictly). -/
def is_blue_detected (red green blue : ℚ) : Bool :=
  let blue_ratio_threshold : ℚ := 3 / 2
  let blue_intensity := blue / (red + green)
  decide (blue_intensity > blue_ratio_threshold)

/-- The decision core of `follow_line`: with fixed threshold 40, a
reflection below threshold commands `(left, right) = (-1, 4)` (left
pivot), otherwise `(4, -1)` (right pivot). -/
def follow_line (reflection : ℚ) : ℚ × ℚ :=
  if reflection < 40 then ((-1 : ℚ), (4 : ℚ)) else ((4 : ℚ), (-1 : ℚ))

/-- The two motor mounting positions (`motor_port` is `'A'` or `'B'`). -/
inductive MotorPort : Type
  | A : MotorPort
  | B : MotorPort
deriving DecidableEq

/-- The `Direction` enum of `mindstorms.py`. -/
inductive Direction : Type
  | CLOCKWISE : Direction
  | COUNTERCLOCKWISE : Direction
deriving DecidableEq

/-- The integer value of a `Direction` (`CLOCKWISE = 1`,
`COUNTERCLOCKWISE = -1`). -/
def Direction.value : Direction → ℤ
  | Direction.CLOCKWISE => 1
  | Direction.COUNTERCLOCKWISE => -1

/-- The state of one `Motor`: its mounting position, its rotation
polarity, and its last commanded speed (initialised to 0). -/
structure Motor : Type where
  motor_port : MotorPort
  direction : Direction
  speed : ℚ
deriving DecidableEq

/-- `Motor.run`: store the requested speed on the invoking motor, compute
both effective speeds (stored speed times polarity), and pack the pair in
mounting-position order — the invoking motor's slot first when it sits at
position A, second otherwise.  Returns the updated invoking motor and the
packed `(left, right)` signal; the other motor is only read. -/
def Motor.run (self other : Motor) (speed : ℚ) : Motor × (ℚ × ℚ) :=
  let self2 : Motor := { self with speed := speed }
  let speed_l := self2.speed * (self2.direction.value : ℚ)
  let speed_r := other.speed * (other.direction.value : ℚ)
  if self2.motor_port = MotorPort.A then
    (self2, (speed_l, speed_r))
  else
    (self2, (speed_r, speed_l))

/-- The left motor as constructed in `lineMaze.py`:
port `'A'`, `Direction.CLOCKWISE`, initial speed 0. -/
def lineMaze_init_left : Motor :=
  { motor_port := MotorPort.A, direction := Direction.CLOCKWISE, speed := 0 }

/-- The right motor as constructed in `lineMaze.py`:
port `'B'`, `Direction.CLOCKWISE`, initial speed 0. -/
def lineMaze_init_right : Motor :=
  { motor_port := MotorPort.B, direction := Direction.CLOCKWISE, speed := 0 }

/-- The packed signals emitted by `n` iterations of the shipped
`lineMaze.py` main loop: each iteration runs `left_motor.run(speed=5)`
then `right_motor.run(speed=5)` and nothing else. -/
def lineMaze_trace : ℕ → Motor → Motor → List (ℚ × ℚ)
  | 0, _, _ => []
  | n + 1, leftM, rightM =>
    let r1 := Motor.run leftM rightM 5
    let r2 := Motor.run rightM r1.1 5
    r1.2 :: r2.2 :: lineMaze_trace n r1.1 r2.1

/-- `get_bumper_sensor` from `wall_e_script.py`: the transport read is
modelled by its return code and already unpacked payload; a nonzero
return code leaves the default force vector `[0, 0, 0]` in place. -/
def get_bumper_sensor (return_code : ℤ) (payload : List ℚ) : List ℚ :=
  if return_code = 0 then payload else [0, 0, 0]

/-- The value returned by `get_sonar_sensor`: either the unpacked float
list on success, or the integer sentinel on failure (the Python function
returns either type). -/
inductive SonarResult : Type
  | data : List ℚ → SonarResult
  | sentinel : ℤ → SonarResult
deriving DecidableEq

/-- `get_sonar_sensor` from `wall_e_script.py`: a nonzero return code
leaves the default `-1` in place; on success the unpacked list is
returned. -/
def get_sonar_sensor (return_code : ℤ) (payload : List ℚ) : SonarResult :=
  if return_code = 0 then SonarResult.data payload else SonarResult.sentinel (-1)

theorem chunksOfAux_length {α : Type} (n m : ℕ) (l : List α) :
    (chunksOfAux n m l).length = m := by
  induction m generalizing l with
  | zero => rfl
  | succ m ih => simp [chunksOfAux, ih]

theorem chunksOfAux_flatten {α : Type} (n m : ℕ) (l : List α)
    (h : l.length = m * n) : (chunksOfAux n m l).flatten = l := by
  induction m generalizing l with
  | zero =>
    have hnil : l = [] := List.eq_nil_of_length_eq_zero (by simpa using h)
    subst hnil; rfl
  | succ m ih =>
    have hd : (l.drop n).length = m * n := by
      rw [List.length_drop, h, Nat.succ_mul]; omega
    simp only [chunksOfAux, List.flatten_cons, ih _ hd, List.take_append_drop]

theorem chunksOfAux_mem_length {α : Type} {n m : ℕ} {l : List α}
    (h : l.length = m * n) {c : List α} (hc : c ∈ chunksOfAux n m l) :
    c.length = n := by
  induction m generalizing l with
  | zero => simp [chunksOfAux] at hc
  | succ m ih =>
    simp only [chunksOfAux, List.mem_cons] at hc
    rcases hc with hc | hc
    · subst hc; rw [List.length_take, h, Nat.succ_mul]; omega
    · exact ih (by rw [List.length_drop, h, Nat.succ_mul]; omega) hc

theorem chunks_exact {α : Type} (n m : ℕ) (hn : 0 < n) (l : List α)
    (h : l.length = m * n) : chunks n l = chunksOfAux n m l := by
  unfold chunks
  rw [h, Nat.mul_div_cancel _ hn]

theorem flatten_map_chunks3 (rows : List (List ℤ))
    (h : ∀ c ∈ rows, (chunks 3 c).flatten = c) :
    ((rows.map (chunks 3)).flatten).flatten = rows.flatten := by
  induction rows with
  | nil => rfl
  | cons c rest ih =>
    simp only [List.map_cons, List.flatten_cons, List.flatten_append]
    rw [h c (List.mem_cons_self _ _),
      ih (fun d hd => h d (List.mem_cons_of_mem _ hd))]

/-- Claim C1: for every raw sample buffer of length `3 * R ^ 2` with
`R ≥ 1` and samples in `[0, 1]`, the frame decoder maps each sample to
`⌊x * 255⌋` and returns a frame of shape `R × R × 3` whose channel
values all lie in `[0, 255]`. -/
theorem C1_decode_shape_and_bounds (R : ℕ) (hR : 1 ≤ R) (image : List ℚ)
    (hlen : image.length = 3 * R ^ 2)
    (hvals : ∀ x ∈ image, 0 ≤ x ∧ x ≤ 1) :
    ∃ frame : Frame, decode image = some frame ∧
      frame.length = R ∧
      (∀ row ∈ frame, row.length = R ∧
        ∀ px ∈ row, px.length = 3 ∧ ∀ v ∈ px, 0 ≤ v ∧ v ≤ 255) ∧
      frame.reverse.flatten.flatten = image.map (fun x => ⌊x * 255⌋) := by
  have hR0 : 0 < R := hR
  set ints := image.map (fun x => pyInt (x * 255)) with hints
  have hintlen : ints.length = 3 * R ^ 2 := by
    rw [hints, List.length_map, hlen]
  have hres : Nat.sqrt (image.length / 3) = R := by
    rw [hlen, Nat.mul_div_cancel_left _ (by norm_num : 0 < 3), Nat.sqrt_eq']
  have hguard : ints.length = R * R * 3 := by rw [hintlen]; ring
  have hrows_len : ints.length = R * (R * 3) := by rw [hintlen]; ring
  have hchunks : chunks (R * 3) ints = chunksOfAux (R * 3) R ints :=
    chunks_exact _ _ (by positivity) _ hrows_len
  refine ⟨(reshape3 R ints).reverse, ?_, ?_, ?_, ?_⟩
  · have hstep : decode image = image_correction image R := by
      unfold decode; rw [hres]
    rw [hstep]
    show (if ints.length = R * R * 3
      then some ((reshape3 R ints).reverse) else none) = _
    rw [if_pos hguard]
  · rw [List.length_reverse]
    unfold reshape3
    rw [List.length_map, hchunks, chunksOfAux_length]
  · intro row hrow
    rw [List.mem_reverse] at hrow
    unfold reshape3 at hrow
    rw [List.mem_map] at hrow
    obtain ⟨c, hc, hrow_eq⟩ := hrow
    rw [hchunks] at hc
    have hclen : c.length = R * 3 := chunksOfAux_mem_length hrows_len hc
    have hchunks3 : chunks 3 c = chunksOfAux 3 R c :=
      chunks_exact _ _ (by norm_num) _ (by rw [hclen])
    subst hrow_eq
    constructor
    · rw [hchunks3, chunksOfAux_length]
    · intro px hpx
      rw [hchunks3] at hpx
      have hpxlen : px.length = 3 :=
        chunksOfAux_mem_length (by rw [hclen]) hpx
      refine ⟨hpxlen, ?_⟩
      intro v hv
      have hvc : v ∈ c := by
        rw [← chunksOfAux_flatten 3 R c (by rw [hclen])]
        exact List.mem_flatten.mpr ⟨px, hpx, hv⟩
      have hvints : v ∈ ints := by
        rw [← chunksOfAux_flatten (R * 3) R ints hrows_len]
        exact List.mem_flatten.mpr ⟨c, hc, hvc⟩
      rw [hints, List.mem_map] at hvints
      obtain ⟨x, hx, hv_eq⟩ := hvints
      obtain ⟨hx0, hx1⟩ := hvals x hx
      subst hv_eq
      have hx255 : (0 : ℚ) ≤ x * 255 := by positivity
      rw [pyInt, if_neg (not_lt.mpr hx255)]
      constructor
      · exact Int.floor_nonneg.mpr hx255
      · calc ⌊x * 255⌋ ≤ ⌊(255 : ℚ)⌋ := Int.floor_le_floor (by nlinarith)
          _ = 255 := by norm_num
  · rw [List.reverse_reverse]
    have hmap : ∀ c ∈ chunks (R * 3) ints, (chunks 3 c).flatten = c := by
      intro c hc
      rw [hchunks] at hc
      have hclen := chunksOfAux_mem_length hrows_len hc
      rw [chunks_exact 3 R (by norm_num) c (by rw [hclen])]
      exact chunksOfAux_flatten _ _ _ (by rw [hclen])
    unfold reshape3
    rw [flatten_map_chunks3 _ hmap, hchunks,
      chunksOfAux_flatten _ _ _ hrows_len, hints]
    apply List.map_congr_left
    intro x hx
    obtain ⟨hx0, _⟩ := hvals x hx
    rw [pyInt, if_neg (not_lt.mpr (by positivity : (0 : ℚ) ≤ x * 255))]

/-- Witness for C1 at the concrete single-pixel buffer `[0, 1/2, 1]`. -/
theorem C1_decode_shape_and_bounds_witness :
    ∃ frame : Frame, decode [(0 : ℚ), 0, 1] = some frame ∧
      frame.length = 1 ∧
      (∀ row ∈ frame, row.length = 1 ∧
        ∀ px ∈ row, px.length = 3 ∧ ∀ v ∈ px, 0 ≤ v ∧ v ≤ 255) ∧
      frame.reverse.flatten.flatten
        = [(0 : ℚ), 0, 1].map (fun x => ⌊x * 255⌋) :=
  C1_decode_shape_and_bounds 1 (by decide) _ (by decide) (by decide)

/-- Claim C2: for every valid raw sample buffer, the decoder reverses the
row axis after reshaping (row `i` of the frame is row `R - 1 - i` of the
reshaped data), and reversing the decoded frame's rows again and
re-flattening reproduces the original buffer's ordering up to the
per-sample integer truncation. -/
theorem C2_decode_flip_roundtrip (R : ℕ) (hR : 1 ≤ R) (image : List ℚ)
    (hlen : image.length = 3 * R ^ 2)
    (_h_vals : ∀ x ∈ image, 0 ≤ x ∧ x ≤ 1) :
    ∃ frame : Frame, decode image = some frame ∧
      (∀ i : ℕ, i < R →
        frame[i]?
          = (reshape3 R (image.map (fun x => pyInt (x * 255))))[R - 1 - i]?) ∧
      frame.reverse.flatten.flatten
        = image.map (fun x => pyInt (x * 255)) := by
  have hR0 : 0 < R := hR
  set ints := image.map (fun x => pyInt (x * 255)) with hints
  have hintlen : ints.length = 3 * R ^ 2 := by
    rw [hints, List.length_map, hlen]
  have hres : Nat.sqrt (image.length / 3) = R := by
    rw [hlen, Nat.mul_div_cancel_left _ (by norm_num : 0 < 3), Nat.sqrt_eq']
  have hguard : ints.length = R * R * 3 := by rw [hintlen]; ring
  have hrows_len : ints.length = R * (R * 3) := by rw [hintlen]; ring
  have hchunks : chunks (R * 3) ints = chunksOfAux (R * 3) R ints :=
    chunks_exact _ _ (by positivity) _ hrows_len
  have hrows : (reshape3 R ints).length = R := by
    unfold reshape3
    rw [List.length_map, hchunks, chunksOfAux_length]
  refine ⟨(reshape3 R ints).reverse, ?_, ?_, ?_⟩
  · have hstep : decode image = image_correction image R := by
      unfold decode; rw [hres]
    rw [hstep]
    show (if ints.length = R * R * 3
      then some ((reshape3 R ints).reverse) else none) = _
    rw [if_pos hguard]
  · intro i hi
    rw [List.getElem?_reverse (by rw [hrows]; exact hi), hrows]
  · rw [List.reverse_reverse]
    have hmap : ∀ c ∈ chunks (R * 3) ints, (chunks 3 c).flatten = c := by
      intro c hc
      rw [hchunks] at hc
      have hclen := chunksOfAux_mem_length hrows_len hc
      rw [chunks_exact 3 R (by norm_num) c (by rw [hclen])]
      exact chunksOfAux_flatten _ _ _ (by rw [hclen])
    unfold reshape3
    rw [flatten_map_chunks3 _ hmap, hchunks,
      chunksOfAux_flatten _ _ _ hrows_len]

/-- Witness for C2 at the concrete buffer of a 1-by-1 image. -/
theorem C2_decode_flip_roundtrip_witness :
    ∃ frame : Frame, decode [(0 : ℚ), 0, 1] = some frame ∧
      (∀ i : ℕ, i < 1 →
        frame[i]?
          = (reshape3 1
              ([(0 : ℚ), 0, 1].map (fun x => pyInt (x * 255))))[1 - 1 - i]?) ∧
      frame.reverse.flatten.flatten
        = [(0 : ℚ), 0, 1].map (fun x => pyInt (x * 255)) :=
  C2_decode_flip_roundtrip 1 (by decide) _ (by decide) (by decide)

/-- Counterexample to claim C3: the empty buffer has a length that is not
`3 * R ^ 2` for any `R ≥ 1`, yet the decoder does not fail — the computed
resolution is 0 and the reshape of zero elements to `0 × 0 × 3` succeeds,
returning an empty frame. -/
theorem C3_empty_buffer_counterexample :
    decode ([] : List ℚ) = some [] ∧
    ∀ R : ℕ, 1 ≤ R → (List.length ([] : List ℚ)) ≠ 3 * R ^ 2 := by
  constructor
  · rfl
  · intro R hR h
    have hpos : 0 < 3 * R ^ 2 :=
      Nat.mul_pos (by norm_num) (pow_pos hR 2)
    simp only [List.length_nil] at h
    omega

/-- Claim C3 as amended: for every nonempty raw sample buffer whose
length is not `3 * R ^ 2` for any integer `R ≥ 1`, the decoder fails
(the empty buffer instead decodes to an empty frame). -/
theorem C3_invalid_length_fails (image : List ℚ) (hne : image ≠ [])
    (h : ∀ R : ℕ, 1 ≤ R → image.length ≠ 3 * R ^ 2) :
    decode image = none := by
  unfold decode image_correction
  set s := Nat.sqrt (image.length / 3) with hs
  rw [if_neg]
  intro hguard
  rw [List.length_map] at hguard
  rcases Nat.eq_zero_or_pos s with h0 | h1
  · rw [h0] at hguard
    simp only [Nat.zero_mul, Nat.mul_zero] at hguard
    exact hne (List.eq_nil_of_length_eq_zero (by omega))
  · exact h s h1 (by rw [hguard]; ring)

/-- Witness for the amended C3 at the concrete length-4 buffer. -/
theorem C3_invalid_length_fails_witness :
    decode [(0 : ℚ), 0, 0, 0] = none := by
  apply C3_invalid_length_fails
  · decide
  · intro R hR h
    simp only [List.length_cons, List.length_nil] at h
    rcases Nat.lt_or_ge R 2 with h2 | h2
    · interval_cases R
      · omega
    · have : 4 ≤ R ^ 2 := by
        calc 4 = 2 ^ 2 := by norm_num
          _ ≤ R ^ 2 := Nat.pow_le_pow_left h2 2
      omega

/-- Claim C4: the line-tracking decision with fixed threshold 40 emits the
left pivot `(-1, 4)` exactly when the reflection is strictly below 40 and
the right pivot `(4, -1)` otherwise; at reflection 10 it pivots left, at
90 it pivots right, and at exactly 40 the else branch gives the right
pivot. -/
theorem C4_follow_line_threshold (r : ℚ) (_h0 : 0 ≤ r) (_h100 : r ≤ 100) :
    (follow_line r = (-1, 4) ↔ r < 40) ∧
    (follow_line r = (4, -1) ↔ ¬ r < 40) ∧
    follow_line 10 = (-1, 4) ∧
    follow_line 90 = (4, -1) ∧
    follow_line 40 = (4, -1) := by
  have hne1 : ((4 : ℚ), (-1 : ℚ)) ≠ ((-1 : ℚ), (4 : ℚ)) := by
    norm_num [Prod.ext_iff]
  have hne2 : ((-1 : ℚ), (4 : ℚ)) ≠ ((4 : ℚ), (-1 : ℚ)) := by
    norm_num [Prod.ext_iff]
  refine ⟨?_, ?_, ?_, ?_, ?_⟩
  · unfold follow_line
    split
    case isTrue hc => exact iff_of_true rfl hc
    case isFalse hc => exact iff_of_false hne1 hc
  · unfold follow_line
    split
    case isTrue hc => exact iff_of_false hne2 (not_not_intro hc)
    case isFalse hc => exact iff_of_true rfl hc
  · norm_num [follow_line]
  · norm_num [follow_line]
  · norm_num [follow_line]

/-- Witness for C4 at reflection 10. -/
theorem C4_follow_line_threshold_witness :
    (follow_line 10 = (-1, 4) ↔ (10 : ℚ) < 40) ∧
    (follow_line 10 = (4, -1) ↔ ¬ (10 : ℚ) < 40) ∧
    follow_line 10 = (-1, 4) ∧
    follow_line 90 = (4, -1) ∧
    follow_line 40 = (4, -1) :=
  C4_follow_line_threshold 10 (by norm_num) (by norm_num)

/-- Claim C5: for two linked motors at positions A and B, `Motor.run`
packs the pair in mounting-position order (position A first) regardless
of the invoker, each slot holding the stored speed times that motor's
polarity; only the invoking motor's stored speed is written.  With both
polarities `+1`, commanding A with 5 while B last held 3 packs `(5, 3)`,
and a subsequent command to B with `-2` packs `(5, -2)`. -/
theorem C5_motor_run_composition (sA sB v : ℚ) (dA dB : Direction) :
    (Motor.run ⟨MotorPort.A, dA, sA⟩ ⟨MotorPort.B, dB, sB⟩ v
      = (⟨MotorPort.A, dA, v⟩, (v * (dA.value : ℚ), sB * (dB.value : ℚ)))) ∧
    (Motor.run ⟨MotorPort.B, dB, sB⟩ ⟨MotorPort.A, dA, sA⟩ v
      = (⟨MotorPort.B, dB, v⟩, (sA * (dA.value : ℚ), v * (dB.value : ℚ)))) ∧
    ((Motor.run ⟨MotorPort.A, Direction.CLOCKWISE, sA⟩
        ⟨MotorPort.B, Direction.CLOCKWISE, 3⟩ 5).2 = (5, 3) ∧
      (Motor.run ⟨MotorPort.B, Direction.CLOCKWISE, 3⟩
        (Motor.run ⟨MotorPort.A, Direction.CLOCKWISE, sA⟩
          ⟨MotorPort.B, Direction.CLOCKWISE, 3⟩ 5).1 (-2)).2
        = (5, -2)) := by
  refine ⟨?_, ?_, ?_, ?_⟩
  · simp [Motor.run]
  · simp [Motor.run]
  · simp [Motor.run, Direction.value]
  · simp [Motor.run, Direction.value]

/-- Counterexample to claim C6: at channel means `(60, 20, 20)` the red
ratio is exactly `1.5`, and the strict comparison of the code makes
`is_red_detected` return `false`, not `true` as the claim states. -/
theorem C6_exact_ratio_counterexample :
    is_red_detected 60 20 20 = false := by
  simp only [is_red_detected, gt_iff_lt, decide_eq_false_iff_not, not_lt]
  norm_num

/-- Claim C6 as amended: with nonzero denominators, `is_red_detected` is
true iff `r / (g + b) > 1.5` and `is_blue_detected` is true iff
`b / (r + g) > 1.5`, strictly; `is_red_detected 60 20 20` (ratio exactly
1.5) is `false` by strictness, and `is_red_detected 50 50 50` is
`false`. -/
theorem C6_ratio_classifiers (red green blue : ℚ)
    (_hgb : green + blue ≠ 0) (_hrg : red + green ≠ 0) :
    (is_red_detected red green blue = true ↔ red / (green + blue) > 3 / 2) ∧
    (is_blue_detected red green blue = true ↔ blue / (red + green) > 3 / 2) ∧
    is_red_detected 60 20 20 = false ∧
    is_red_detected 50 50 50 = false := by
  refine ⟨?_, ?_, ?_, ?_⟩
  · simp [is_red_detected]
  · simp [is_blue_detected]
  · simp only [is_red_detected, gt_iff_lt, decide_eq_false_iff_not, not_lt]
    norm_num
  · simp only [is_red_detected, gt_iff_lt, decide_eq_false_iff_not, not_lt]
    norm_num

/-- Witness for the amended C6 at `(60, 20, 20)`. -/
theorem C6_ratio_classifiers_witness :
    (is_red_detected 60 20 20 = true ↔ (60 : ℚ) / (20 + 20) > 3 / 2) ∧
    (is_blue_detected 60 20 20 = true ↔ (20 : ℚ) / (60 + 20) > 3 / 2) ∧
    is_red_detected 60 20 20 = false ∧
    is_red_detected 50 50 50 = false :=
  C6_ratio_classifiers 60 20 20 (by norm_num) (by norm_num)

theorem replicate_flatten {α : Type} (m k : ℕ) (a : α) :
    (List.replicate m (List.replicate k a)).flatten
      = List.replicate (m * k) a := by
  induction m with
  | zero => simp
  | succ m ih =>
    rw [List.replicate_succ, List.flatten_cons, ih, ← List.replicate_add]
    congr 1
    ring

theorem redChannel_constFrame (res : ℕ) (v : ℤ) :
    redChannel (constFrame res v) = List.replicate (res * res) v := by
  unfold redChannel constFrame
  rw [replicate_flatten, List.map_replicate]
  rfl

theorem listMean_replicate (n : ℕ) (q : ℚ) (hn : 0 < n) :
    listMean (List.replicate n q) = q := by
  unfold listMean
  rw [List.sum_replicate, List.length_replicate, nsmul_eq_mul]
  exact mul_div_cancel_left₀ q (Nat.cast_ne_zero.mpr hn.ne')

theorem sum_map_scale (l : List ℚ) :
    (l.map (fun v => v / 255 * 100)).sum = l.sum / 255 * 100 := by
  induction l with
  | nil => simp
  | cons a t ih =>
    simp only [List.map_cons, List.sum_cons, ih]
    ring

/-- Claim C8: `reflection` is the mean of the red channel scaled to a
percentage (`mean / 255 * 100`); it is 0 on an all-zero frame and 100 on
an all-255 frame, for every resolution `R ≥ 1` including a single
pixel. -/
theorem C8_reflection_red_mean (R : ℕ) (hR : 1 ≤ R) (frame : Frame)
    (_h_ne : redChannel frame ≠ []) :
    reflection frame
      = listMean ((redChannel frame).map (fun v : ℤ => (v : ℚ))) / 255 * 100 ∧
    reflection (constFrame R 0) = 0 ∧
    reflection (constFrame R 255) = 100 := by
  refine ⟨?_, ?_, ?_⟩
  · unfold reflection listMean
    rw [show (redChannel frame).map (fun v : ℤ => (v : ℚ) / 255 * 100)
        = ((redChannel frame).map (fun v : ℤ => (v : ℚ))).map
            (fun q => q / 255 * 100) by rw [List.map_map]; rfl]
    rw [sum_map_scale, List.length_map, List.length_map]
    ring
  · unfold reflection
    rw [redChannel_constFrame, List.map_replicate]
    norm_num
    simp [listMean, List.sum_replicate]
  · unfold reflection
    rw [redChannel_constFrame, List.map_replicate]
    rw [show (((255 : ℤ) : ℚ) / 255 * 100) = 100 by norm_num]
    exact listMean_replicate _ _ (Nat.mul_pos hR hR)

/-- Witness for C8 at resolution 1 and the single-pixel all-zero frame. -/
theorem C8_reflection_red_mean_witness :
    reflection (constFrame 1 0)
      = listMean ((redChannel (constFrame 1 0)).map (fun v : ℤ => (v : ℚ)))
          / 255 * 100 ∧
    reflection (constFrame 1 0) = 0 ∧
    reflection (constFrame 1 255) = 100 :=
  C8_reflection_red_mean 1 (by decide) (constFrame 1 0) (by decide)

/-- Claim C9: on every transport read with nonzero return code, the
object-sorting sensor readers return sentinel defaults instead of
surfacing the error: the zero force vector for the bumper, `-1` for the
sonar. -/
theorem C9_sensor_error_sentinels (return_code : ℤ) (h : return_code ≠ 0)
    (payload : List ℚ) :
    get_bumper_sensor return_code payload = [0, 0, 0] ∧
    get_sonar_sensor return_code payload = SonarResult.sentinel (-1) := by
  unfold get_bumper_sensor get_sonar_sensor
  rw [if_neg h, if_neg h]
  exact ⟨rfl, rfl⟩

/-- Witness for C9 at return code 1. -/
theorem C9_sensor_error_sentinels_witness :
    get_bumper_sensor 1 [] = [0, 0, 0] ∧
    get_sonar_sensor 1 [] = SonarResult.sentinel (-1) :=
  C9_sensor_error_sentinels 1 (by decide) []

theorem lineMaze_trace_mem (n : ℕ) (sL sR : ℚ) (hsR : sR = 0 ∨ sR = 5) :
    ∀ p ∈ lineMaze_trace n
        ⟨MotorPort.A, Direction.CLOCKWISE, sL⟩
        ⟨MotorPort.B, Direction.CLOCKWISE, sR⟩,
      p = (5, 0) ∨ p = (5, 5) := by
  induction n generalizing sL sR with
  | zero =>
    intro p hp
    simp [lineMaze_trace] at hp
  | succ n ih =>
    intro p hp
    have h1 : Motor.run ⟨MotorPort.A, Direction.CLOCKWISE, sL⟩
        ⟨MotorPort.B, Direction.CLOCKWISE, sR⟩ 5
        = (⟨MotorPort.A, Direction.CLOCKWISE, 5⟩, (5, sR)) := by
      simp [Motor.run, Direction.value]
    have h2 : Motor.run ⟨MotorPort.B, Direction.CLOCKWISE, sR⟩
        ⟨MotorPort.A, Direction.CLOCKWISE, 5⟩ 5
        = (⟨MotorPort.B, Direction.CLOCKWISE, 5⟩, (5, 5)) := by
      simp [Motor.run, Direction.value]
    simp only [lineMaze_trace, h1, h2] at hp
    rcases List.mem_cons.mp hp with h | hp2
    · rcases hsR with rfl | rfl
      · exact Or.inl (by rw [h])
      · exact Or.inr (by rw [h])
    rcases List.mem_cons.mp hp2 with h | hp3
    · exact Or.inr (by rw [h])
    · exact ih 5 5 (Or.inr rfl) p hp3

/-- Claim C10: in the shipped `lineMaze.py` main loop every emitted
packed signal carries speed 5 from the invoking motor — it is `(5, 0)`
or `(5, 5)` — and no signal ever equals a `follow_line` pivot decision,
which is never invoked. -/
theorem C10_loop_never_pivots (n : ℕ) (p : ℚ × ℚ)
    (hp : p ∈ lineMaze_trace n lineMaze_init_left lineMaze_init_right) :
    (p = (5, 0) ∨ p = (5, 5)) ∧ ∀ x : ℚ, follow_line x ≠ p := by
  have hp2 : p ∈ lineMaze_trace n
      ⟨MotorPort.A, Direction.CLOCKWISE, 0⟩
      ⟨MotorPort.B, Direction.CLOCKWISE, 0⟩ := hp
  have hmem := lineMaze_trace_mem n 0 0 (Or.inl rfl) p hp2
  refine ⟨hmem, ?_⟩
  intro x
  unfold follow_line
  rcases hmem with rfl | rfl <;> split <;> norm_num [Prod.ext_iff]

/-- Witness for C10 at the first emitted signal of the first iteration. -/
theorem C10_loop_never_pivots_witness :
    (((5 : ℚ), (0 : ℚ)) = (5, 0) ∨ ((5 : ℚ), (0 : ℚ)) = (5, 5)) ∧
    ∀ x : ℚ, follow_line x ≠ ((5 : ℚ), (0 : ℚ)) :=
  C10_loop_never_pivots 1 (5, 0)
    (by simp [lineMaze_trace, Motor.run, Direction.value,
      lineMaze_init_left, lineMaze_init_right])

end Robo
